import Mathlib

/-! zvm: the `run` flow, the command actions and the version helpers

A shallow embedding of `pkg/zvm/run.go`, `pkg/zvm/config.go` and the command
actions of `cmd/zvm/main.go`.

Go functions become Lean functions over an explicit machine state: the
`cli.ZVM` value, the world outside the process (file system, network,
terminal) and the list of calls made so far. Code of other packages and of
files that are not part of the development (`Install`, `getTarPath`,
`os.Stat`, `meta.Exec`, ...) is a field of `Env`: the embedding fixes how the
code calls it, not what it answers.
-/

namespace Zvm

/-! ## Go values -/

/-- Go `error` values. `sentinel` is a package-level variable made with
`errors.New` (its name stands for its identity), `errorString` is a fresh value
without a wrapped error (`errors.New`, or `fmt.Errorf` without a `%w` verb) and
`wrapError` is the result of `fmt.Errorf` with a `%w` operand. -/
inductive GoError where
  | sentinel (name : String) (text : String)
  | errorString (text : String)
  | wrapError (text : String) (err : GoError)
  deriving DecidableEq, Repr

/-- The `Error()` method: the message of an error. -/
def GoError.Error : GoError → String
  | .sentinel _ text => text
  | .errorString text => text
  | .wrapError text _ => text

/-- Go `errors.Is(err, target)`: `target` is met somewhere on the unwrap chain
of `err`. -/
def errorsIs : GoError → GoError → Bool
  | .wrapError text inner, target =>
      decide (GoError.wrapError text inner = target) || errorsIs inner target
  | e, target => decide (e = target)

/-- What a Go function with result type `error` does: return `nil`, return an
error, or not return at all because of a run-time panic. -/
inductive Outcome where
  | nil
  | err (e : GoError)
  | panic (reason : String)
  deriving DecidableEq, Repr

/-- Values of type `any` as `encoding/json` decodes them (numbers are kept as
integers; the code only asks whether a value is a string). -/
inductive GoAny where
  | null
  | bool (b : Bool)
  | number (n : Int)
  | string (s : String)
  | array (xs : List GoAny)
  | object (kv : List (String × GoAny))

/-- A Go `map[string]V`, as the list of its entries. -/
abbrev GoMap (V : Type) := List (String × V)

/-- Go `m[k]`: the value stored under `k`, or the zero value of the element
type when the key is absent (also for a nil map). -/
def GoMap.index {V : Type} (m : GoMap V) (k : String) (zero : V) : V :=
  (List.lookup k m).getD zero

/-- A representation of individual Zig versions: `map[string]any`. -/
abbrev zigVersion := GoMap GoAny

/-- The official json schema for Zig versions: `map[string]zigVersion`. -/
abbrev zigVersionMap := GoMap zigVersion

/-! ## `strings` -/

/-- Go `unicode.IsSpace`. -/
def isSpace (c : Char) : Bool :=
  let n := c.toNat
  n == 9 || n == 10 || n == 11 || n == 12 || n == 13 || n == 32 ||
  n == 0x85 || n == 0xA0 || n == 0x1680 || (0x2000 ≤ n && n ≤ 0x200A) ||
  n == 0x2028 || n == 0x2029 || n == 0x202F || n == 0x205F || n == 0x3000

/-- Go `strings.TrimSpace`: all leading and trailing white space removed. -/
def TrimSpace (s : String) : String :=
  ⟨((s.data.dropWhile isSpace).reverse.dropWhile isSpace).reverse⟩

/-- Go `strings.TrimPrefix`: `s` without the leading `pre`, or `s` itself when
it does not start with `pre`. -/
def TrimPrefix (s pre : String) : String :=
  if pre.data.isPrefixOf s.data then ⟨s.data.drop pre.data.length⟩ else s

/-! ## The machine -/

/-- The fields of `Settings` that the code under study reads or writes. -/
structure Settings where
  path : String
  UseColor : Bool
  VersionMapUrl : String
  ZlsVMU : String
  AlwaysForceInstall : Bool
  deriving DecidableEq, Repr

/-- The `ZVM` struct of `config.go`. -/
structure ZVM where
  baseDir : String
  Settings : Settings
  deriving DecidableEq, Repr

/-- What `os.Stat` reports about a file; `Name` is its base name. -/
structure FileInfo where
  Name : String
  deriving DecidableEq, Repr

/-- The result of `ExtractInstall`. -/
structure installRequest where
  Site : String
  Package : String
  Version : String
  deriving DecidableEq, Repr

/-- One call made by the code under study to something outside of it. -/
inductive Call where
  | GetInstalledVersions
  | fetchVersionMap
  | getTarPath (version : String)
  | Printf (text : String)
  | getConfirmation
  | Install (version : String) (force : Bool)
  | InstallZls (version : String) (compat : String) (force : Bool)
  | Use (version : String)
  | Sync
  | Uninstall (version : String)
  | Run (version : String) (cmd : List String)
  | Stat (path : String)
  | Exec (bin : String) (cmd : List String)
  | CommandRun (name : String) (args : List String)
  | logWarn (e : GoError)
  | logDebug (msg : String) (keyvals : List String)
  deriving DecidableEq, Repr

/-- The state a command runs in: the `cli.ZVM` value, the world outside the
process, and the calls made so far (oldest first). -/
structure Machine (X : Type) where
  zvm : ZVM
  ext : X
  calls : List Call

/-- Note a call. -/
def Machine.record {X : Type} (m : Machine X) (c : Call) : Machine X :=
  { m with calls := m.calls ++ [c] }

/-- The calls of the install-on-run path: the catalogue fetch, the resolution of
the token, the prompt and `Install`. -/
def Call.isInstallStep : Call → Bool
  | .fetchVersionMap => true
  | .getTarPath _ => true
  | .Printf _ => true
  | .getConfirmation => true
  | .Install _ _ => true
  | _ => false

/-- A call of `Install`. -/
def Call.isInstall : Call → Bool
  | .Install _ _ => true
  | _ => false

/-- The calls `runBin` makes: `os.Stat` and `meta.Exec`. -/
def Call.isRunBinStep : Call → Bool
  | .Stat _ => true
  | .Exec _ _ => true
  | _ => false

/-- Everything the code under study calls and that is not part of it: the Go
standard library and run time, the methods of `ZVM` defined in other files, and
the answers of the outside world. Methods with a pointer receiver may change
the `ZVM` value; every call may change the world. -/
structure Env (X : Type) where
  /-- `runtime.GOOS`. -/
  GOOS : String
  /-- `filepath.Join` of the listed elements. -/
  Join : List String → String
  /-- The `%q` verb of `fmt`: the Go-quoted form of a string. -/
  Quote : String → String
  /-- The package variable `ErrUnsupportedVersion`. -/
  ErrUnsupportedVersion : GoError
  /-- `ExtractInstall`. -/
  ExtractInstall : String → installRequest
  /-- `(*ZVM).GetInstalledVersions`. -/
  GetInstalledVersions : ZVM → X → Except GoError (List String) × ZVM × X
  /-- `(*ZVM).fetchVersionMap`. -/
  fetchVersionMap : ZVM → X → Except GoError zigVersionMap × ZVM × X
  /-- `getTarPath(version, &versionMap)`. -/
  getTarPath : String → zigVersionMap → X → Except GoError String × X
  /-- `getConfirmation()`: the answer to the yes/no prompt. -/
  getConfirmation : X → Bool × X
  /-- `(*ZVM).Install(version, force)`. -/
  Install : String → Bool → ZVM → X → Option GoError × ZVM × X
  /-- `(*ZVM).InstallZls(version, compatMode, force)`. -/
  InstallZls : String → String → Bool → ZVM → X → Option GoError × ZVM × X
  /-- `(*ZVM).Use(version)`. -/
  Use : String → ZVM → X → Option GoError × ZVM × X
  /-- `(*ZVM).Sync()`. -/
  Sync : ZVM → X → Option GoError × ZVM × X
  /-- `(*ZVM).Uninstall(version)`. -/
  Uninstall : String → ZVM → X → Option GoError × ZVM × X
  /-- `os.Stat(path)`: a read of the file system. -/
  Stat : String → X → Except GoError FileInfo
  /-- `meta.Exec(bin, cmd)`. -/
  Exec : String → List String → X → Option GoError × X
  /-- `exec.Command(name, args...)` run with its standard output captured:
  the captured text and the error of `cmd.Run()`. -/
  CommandRun : String → List String → X → (String × Option GoError) × X

section calls
variable {X : Type} (env : Env X)

/-- Turn an optional error into the outcome of a function that returns it. -/
def Outcome.ofError : Option GoError → Outcome
  | none => .nil
  | some e => .err e

/-- Call `z.GetInstalledVersions()`. -/
def callGetInstalledVersions (m : Machine X) : Except GoError (List String) × Machine X :=
  match env.GetInstalledVersions m.zvm m.ext with
  | (r, z, x) => (r, ⟨z, x, m.calls ++ [.GetInstalledVersions]⟩)

/-- Call `z.fetchVersionMap()`. -/
def callFetchVersionMap (m : Machine X) : Except GoError zigVersionMap × Machine X :=
  match env.fetchVersionMap m.zvm m.ext with
  | (r, z, x) => (r, ⟨z, x, m.calls ++ [.fetchVersionMap]⟩)

/-- Call `getTarPath(version, &versionMap)`. -/
def callGetTarPath (version : String) (vm : zigVersionMap) (m : Machine X) :
    Except GoError String × Machine X :=
  match env.getTarPath version vm m.ext with
  | (r, x) => (r, ⟨m.zvm, x, m.calls ++ [.getTarPath version]⟩)

/-- Call `getConfirmation()`. -/
def callGetConfirmation (m : Machine X) : Bool × Machine X :=
  match env.getConfirmation m.ext with
  | (r, x) => (r, ⟨m.zvm, x, m.calls ++ [.getConfirmation]⟩)

/-- Call `z.Install(version, force)`. -/
def callInstall (version : String) (force : Bool) (m : Machine X) : Option GoError × Machine X :=
  match env.Install version force m.zvm m.ext with
  | (r, z, x) => (r, ⟨z, x, m.calls ++ [.Install version force]⟩)

/-- Call `z.InstallZls(version, compat, force)`. -/
def callInstallZls (version compat : String) (force : Bool) (m : Machine X) :
    Option GoError × Machine X :=
  match env.InstallZls version compat force m.zvm m.ext with
  | (r, z, x) => (r, ⟨z, x, m.calls ++ [.InstallZls version compat force]⟩)

/-- Call `z.Use(version)`. -/
def callUse (version : String) (m : Machine X) : Outcome × Machine X :=
  match env.Use version m.zvm m.ext with
  | (r, z, x) => (Outcome.ofError r, ⟨z, x, m.calls ++ [.Use version]⟩)

/-- Call `z.Sync()`. -/
def callSync (m : Machine X) : Outcome × Machine X :=
  match env.Sync m.zvm m.ext with
  | (r, z, x) => (Outcome.ofError r, ⟨z, x, m.calls ++ [.Sync]⟩)

/-- Call `z.Uninstall(version)`. -/
def callUninstall (version : String) (m : Machine X) : Outcome × Machine X :=
  match env.Uninstall version m.zvm m.ext with
  | (r, z, x) => (Outcome.ofError r, ⟨z, x, m.calls ++ [.Uninstall version]⟩)

/-- Call `os.Stat(path)`. The Go function returns a pair; when it fails the
`FileInfo` of the pair is nil. -/
def osStat (path : String) (m : Machine X) : (Option FileInfo × Option GoError) × Machine X :=
  match env.Stat path m.ext with
  | .ok info => ((some info, none), m.record (.Stat path))
  | .error e => ((none, some e), m.record (.Stat path))

/-- Call `meta.Exec(bin, cmd)`. -/
def metaExec (bin : String) (cmd : List String) (m : Machine X) : Option GoError × Machine X :=
  match env.Exec bin cmd m.ext with
  | (r, x) => (r, ⟨m.zvm, x, m.calls ++ [.Exec bin cmd]⟩)

/-- Build `exec.Command(name, args...)`, capture its standard output and run it. -/
def commandRun (name : String) (args : List String) (m : Machine X) :
    (String × Option GoError) × Machine X :=
  match env.CommandRun name args m.ext with
  | (r, x) => (r, ⟨m.zvm, x, m.calls ++ [.CommandRun name args]⟩)

end calls

/-! ## `config.go` -/

/-- `LoadMasterVersion` takes a `zigVersionMap` and returns the version of the
master distribution if it is present, and the empty string if it is not. -/
def LoadMasterVersion (zigMap : zigVersionMap) : String :=
  match GoMap.index (GoMap.index zigMap "master" []) "version" GoAny.null with
  | .string ver => ver
  | _ => ""

section code
variable {X : Type} (env : Env X)

/-- `(z ZVM) getVersion(version)` of `config.go`. -/
def getVersion (version : String) (m : Machine X) : Outcome × Machine X :=
  match osStat env (env.Join [m.zvm.baseDir, version]) m with
  | ((_, some err), m1) => (.err err, m1)
  | ((_, none), m1) =>
    let targetZig := TrimSpace (env.Join [m.zvm.baseDir, version, "zig"])
    match commandRun env targetZig ["version"] m1 with
    | ((zigVersion, err), m2) =>
      let m3 := match err with
        | some e => m2.record (.logWarn e)
        | none => m2
      let outputVersion := TrimSpace zigVersion
      let m4 := m3.record (.logDebug "getVersion:"
        ["output", outputVersion, "version", version, "program", targetZig])
      if version = outputVersion then
        (.nil, m4)
      else
        match osStat env targetZig m4 with
        | ((_, statErr), m5) =>
          if statErr = none || version = "master" then
            (.nil, m5)
          else
            (.err (.errorString ("version " ++ version ++ " is not a released version")), m5)

/-! ## `run.go` -/

/-- `(z *ZVM) runBin(version, cmd)`. When `os.Stat` fails, `stat` is nil and
evaluating the argument `stat.Name()` of `fmt.Errorf` dereferences it. -/
def runBin (version : String) (cmd : List String) (m : Machine X) : Outcome × Machine X :=
  let zigExe := if env.GOOS = "windows" then "zig.exe" else "zig"
  let bin := TrimSpace (env.Join [m.zvm.baseDir, version, zigExe])
  match osStat env bin m with
  | ((stat, some err), m1) =>
    match stat with
    | none => (.panic "runtime error: invalid memory address or nil pointer dereference", m1)
    | some info => (.err (.wrapError (err.Error ++ ": " ++ info.Name) err), m1)
  | ((_, none), m1) =>
    match metaExec env bin cmd m1 with
    | (some err, m2) => (.err err, m2)
    | (none, m2) => (.nil, m2)

/-- The text `Run` prints before it asks for confirmation. -/
def promptText (version : String) : String :=
  "It looks like " ++ version ++ " isn't installed. Would you like to install it? [y/n]\n"

/-- `(z *ZVM) Run(version, cmd)`: run the given Zig compiler with the provided
arguments. -/
def Run (version : String) (cmd : List String) (m : Machine X) : Outcome × Machine X :=
  if version.utf8ByteSize = 0 then
    (.err (.errorString "no zig version provided."), m)
  else
    match callGetInstalledVersions env m with
    | (.error err, m1) => (.err err, m1)
    | (.ok installedVersions, m1) =>
      if installedVersions.contains version then
        runBin env version cmd m1
      else
        match callFetchVersionMap env m1 with
        | (.error err, m2) => (.err err, m2)
        | (.ok rawVersionStructure, m2) =>
          match callGetTarPath env version rawVersionStructure m2 with
          | (.error err, m3) =>
            if errorsIs err env.ErrUnsupportedVersion then
              (.err (.errorString (err.Error ++ ": " ++ env.Quote version)), m3)
            else
              (.err err, m3)
          | (.ok _, m3) =>
            let m4 := m3.record (.Printf (promptText version))
            match callGetConfirmation env m4 with
            | (false, m5) =>
              (.err (.errorString ("version " ++ version ++ " is not installed")), m5)
            | (true, m5) =>
              match callInstall env version false m5 with
              | (some err, m6) => (.err err, m6)
              | (none, m6) => runBin env version cmd m6

/-! ## `main.go`: the command actions -/

/-- The part of a `cli.Context` the actions read: the positional arguments and
the boolean flags. -/
structure Context where
  args : List String
  Bool : String → Bool

/-- `ctx.Args().First()`: the first argument, or the empty string. -/
def Context.First (ctx : Context) : String :=
  ctx.args.headD ""

/-- `ctx.Args().Tail()`: the arguments after the first. -/
def Context.Tail (ctx : Context) : List String :=
  ctx.args.tail

/-- The compatibility mode the `install` action computes from the `--full`
flag. -/
def zlsCompatOf (ctx : Context) : String :=
  if ctx.Bool "full" then "full" else "only-runtime"

/-- The action of the `install` command. -/
def installAction (ctx : Context) (m : Machine X) : Outcome × Machine X :=
  let versionArg := TrimPrefix ctx.First "v"
  if versionArg = "" then
    (.err (.errorString "no version provided"), m)
  else
    let req := env.ExtractInstall versionArg
    let req := { req with Version := TrimPrefix req.Version "v" }
    let force := m.zvm.Settings.AlwaysForceInstall
    let force := if ctx.Bool "force" then ctx.Bool "force" else force
    let zlsCompat := zlsCompatOf ctx
    match callInstall env req.Package force m with
    | (some err, m1) => (.err err, m1)
    | (none, m1) =>
      if ctx.Bool "zls" then
        match callInstallZls env req.Package zlsCompat force m1 with
        | (some err, m2) => (.err err, m2)
        | (none, m2) => (.nil, m2)
      else
        (.nil, m1)

/-- The action of the `use` command. -/
def useAction (ctx : Context) (m : Machine X) : Outcome × Machine X :=
  if ctx.Bool "sync" then
    callSync env m
  else
    let versionArg := TrimPrefix ctx.First "v"
    callUse env versionArg m

/-- The action of the `run` command. The call of `zvm.Run` is noted, then its
body runs. -/
def runAction (ctx : Context) (m : Machine X) : Outcome × Machine X :=
  let versionArg := TrimPrefix ctx.First "v"
  let cmd := ctx.Tail
  Run env versionArg cmd (m.record (.Run versionArg cmd))

/-- The action of the `uninstall` command. -/
def uninstallAction (ctx : Context) (m : Machine X) : Outcome × Machine X :=
  let versionArg := TrimPrefix ctx.First "v"
  callUninstall env versionArg m

end code

/-! ## A small concrete world

Used to evaluate the definitions on concrete inputs. -/

/-- A store under `/zvm`: the version directories it holds, the versions whose
directory holds a `zig` binary, the catalogue the server answers with and the
answer the user gives at the prompt. -/
structure Disk where
  versions : List String
  binaries : List String
  catalog : zigVersionMap
  answer : Bool

/-- `os.Stat` on a `Disk`. -/
def Disk.stat (path : String) (d : Disk) : Except GoError FileInfo :=
  match d.versions.find? (fun v => path = "/zvm/" ++ v) with
  | some v => .ok ⟨v⟩
  | none =>
    if d.binaries.any (fun v => path = "/zvm/" ++ v ++ "/zig") then .ok ⟨"zig"⟩
    else .error (.errorString ("stat " ++ path ++ ": no such file or directory"))

/-- Running a binary of the store with its output captured: a binary that is
there prints its version and a newline. -/
def Disk.command (name : String) (d : Disk) : String × Option GoError :=
  match d.binaries.find? (fun v => name = "/zvm/" ++ v ++ "/zig") with
  | some v => (v ++ "\n", none)
  | none => ("", some (.errorString ("fork/exec " ++ name ++ ": no such file or directory")))

/-- Resolution against a catalogue for the platform `x86_64-linux`. -/
def Disk.resolve (version : String) (vm : zigVersionMap) : Except GoError String :=
  match List.lookup version vm with
  | none => .error (.sentinel "ErrUnsupportedVersion" "unsupported Zig version")
  | some entry =>
    match List.lookup "x86_64-linux" entry with
    | some (.string url) => .ok url
    | _ => .error (.sentinel "ErrUnsupportedSystem" "unsupported system")

/-- An environment over `Disk`. `Join` and `Quote` agree with the Go functions
on path elements and strings without special characters. -/
def diskEnv : Env Disk where
  GOOS := "linux"
  Join := fun parts => "/".intercalate parts
  Quote := fun s => "\"" ++ s ++ "\""
  ErrUnsupportedVersion := .sentinel "ErrUnsupportedVersion" "unsupported Zig version"
  ExtractInstall := fun s => ⟨"", s, ""⟩
  GetInstalledVersions := fun z d => (.ok d.versions, z, d)
  fetchVersionMap := fun z d => (.ok d.catalog, z, d)
  getTarPath := fun version vm d => (Disk.resolve version vm, d)
  getConfirmation := fun d => (d.answer, d)
  Install := fun version _ z d =>
    (none, z, { d with versions := version :: d.versions, binaries := version :: d.binaries })
  InstallZls := fun _ _ _ z d => (none, z, d)
  Use := fun version z d =>
    (if d.versions.contains version then none
      else some (.errorString ("version " ++ version ++ " is not installed")), z, d)
  Sync := fun z d => (none, z, d)
  Uninstall := fun version z d =>
    (none, z, { d with versions := d.versions.erase version, binaries := d.binaries.erase version })
  Stat := Disk.stat
  Exec := fun _ _ d => (none, d)
  CommandRun := fun name _ d => (Disk.command name d, d)

/-- A catalogue with one release, for one platform, and the rolling entry. -/
def sampleCatalog : zigVersionMap :=
  [("master", [("version", .string "0.14.0-dev.1+abc"), ("x86_64-linux", .string "https://m")]),
   ("0.11.0", [("x86_64-linux", .string "https://a")]),
   ("0.10.0", [("aarch64-macos", .string "https://b")])]

/-- The `ZVM` value of the examples. -/
def sampleZVM : ZVM :=
  ⟨"/zvm", ⟨"/zvm/settings.json", true, "https://ziglang.org/download/index.json",
    "https://releases.zigtools.org/", false⟩⟩

/-- A machine over a `Disk` with no call made yet. -/
def machineOf (d : Disk) : Machine Disk :=
  ⟨sampleZVM, d, []⟩

/-- An empty store; the user declines. -/
def freshDisk : Disk := ⟨[], [], sampleCatalog, false⟩

/-- An empty store; the user accepts. -/
def eagerDisk : Disk := ⟨[], [], sampleCatalog, true⟩

/-- A store that holds `0.11.0` with its binary. -/
def goodDisk : Disk := ⟨["0.11.0"], ["0.11.0"], sampleCatalog, false⟩

/-- A store whose `0.11.0` directory holds no binary. -/
def brokenDisk : Disk := ⟨["0.11.0"], [], sampleCatalog, false⟩

/-- A context with the given arguments and no flag set. -/
def plainContext (args : List String) : Context :=
  ⟨args, fun _ => false⟩

/-- A context with the given arguments and the listed flags set. -/
def flagContext (args : List String) (flags : List String) : Context :=
  ⟨args, fun name => flags.contains name⟩

/-- The normalisation the command actions apply, in words: one leading `v` is
removed when the argument starts with one, and nothing else changes. -/
def stripLeadingV (s : String) : String :=
  match s.data with
  | 'v' :: rest => ⟨rest⟩
  | _ => s

/-! ## Auxiliary facts -/

theorem utf8ByteSize_eq_zero_iff (s : String) : s.utf8ByteSize = 0 ↔ s = "" := by
  cases s with
  | mk cs =>
    cases cs with
    | nil => simp [String.utf8ByteSize, String.utf8ByteSize.go]
    | cons c cs =>
      have hc := Char.utf8Size_pos c
      have h1 : (⟨c :: cs⟩ : String) ≠ "" := by
        intro h
        have := congrArg String.data h
        simp at this
      simp only [String.utf8ByteSize, String.utf8ByteSize.go]
      constructor
      · intro h; omega
      · intro h; exact absurd h h1

theorem TrimPrefix_v (s : String) : TrimPrefix s "v" = stripLeadingV s := by
  have hv : "v".data = ['v'] := rfl
  cases s with
  | mk cs =>
    cases cs with
    | nil => simp [TrimPrefix, stripLeadingV, hv, List.isPrefixOf]
    | cons c cs =>
      by_cases hc : c = 'v'
      · subst hc
        simp [TrimPrefix, stripLeadingV, hv, List.isPrefixOf]
      · have hc2 : ¬ 'v' = c := fun h => hc h.symm
        simp [TrimPrefix, stripLeadingV, hv, List.isPrefixOf, hc, hc2]

theorem TrimPrefix_v_eq_empty_iff (s : String) :
    TrimPrefix s "v" = "" ↔ s = "" ∨ s = "v" := by
  rw [TrimPrefix_v]
  cases s with
  | mk cs =>
    cases cs with
    | nil => simp [stripLeadingV]
    | cons c cs =>
      by_cases hc : c = 'v'
      · subst hc
        simp only [stripLeadingV]
        constructor
        · intro h
          have h2 := congrArg String.data h
          simp at h2
          right
          rw [h2]
        · intro h
          rcases h with h | h
          · have h2 := congrArg String.data h
            simp at h2
          · have h2 := congrArg String.data h
            have hv : "v".data = ['v'] := rfl
            simp [hv] at h2
            rw [h2]
      · have h1 : (⟨c :: cs⟩ : String) ≠ "" := by
          intro h
          have h2 := congrArg String.data h
          simp at h2
        have h2 : (⟨c :: cs⟩ : String) ≠ "v" := by
          intro h
          have h3 := congrArg String.data h
          have hv : "v".data = ['v'] := rfl
          simp [hv] at h3
          exact hc h3.1
        simp [stripLeadingV, hc, h1, h2]

section facts
variable {X : Type} (env : Env X)

/-- The calls of `runBin` are calls of `os.Stat` and `meta.Exec` only. -/
theorem runBin_calls (version : String) (cmd : List String) (m : Machine X) :
    ∃ rest, (runBin env version cmd m).2.calls = m.calls ++ rest ∧
      ∀ c ∈ rest, c.isRunBinStep = true := by
  unfold runBin osStat metaExec
  simp only []
  generalize TrimSpace (env.Join [m.zvm.baseDir, version,
      if env.GOOS = "windows" then "zig.exe" else "zig"]) = bin
  cases hs : env.Stat bin m.ext with
  | error e =>
    exact ⟨[.Stat bin], by simp [Machine.record], by simp [Call.isRunBinStep]⟩
  | ok info =>
    rcases he : env.Exec bin cmd m.ext with ⟨_ | e, x⟩
    · exact ⟨[.Stat bin, .Exec bin cmd], by simp [Machine.record, he],
        by simp [Call.isRunBinStep]⟩
    · exact ⟨[.Stat bin, .Exec bin cmd], by simp [Machine.record, he],
        by simp [Call.isRunBinStep]⟩

/-- The calls of `runBin` are no calls of `Install`. -/
theorem filter_isInstall_of_runBinStep (rest : List Call)
    (h : ∀ c ∈ rest, c.isRunBinStep = true) : rest.filter Call.isInstall = [] := by
  rw [List.filter_eq_nil_iff]
  intro c hc
  have := h c hc
  cases c <;> simp_all [Call.isRunBinStep, Call.isInstall]

/-- `Run` only adds calls to the ones made before. -/
theorem Run_calls (version : String) (cmd : List String) (m : Machine X) :
    ∃ rest, (Run env version cmd m).2.calls = m.calls ++ rest := by
  by_cases hz : version.utf8ByteSize = 0
  · exact ⟨[], by simp [Run, hz]⟩
  rcases hget : env.GetInstalledVersions m.zvm m.ext with ⟨r1, z1, x1⟩
  cases r1 with
  | error e =>
    exact ⟨[.GetInstalledVersions], by simp [Run, hz, callGetInstalledVersions, hget]⟩
  | ok vs =>
    by_cases hin : version ∈ vs
    · obtain ⟨rest, hrest, _⟩ :=
        runBin_calls env version cmd ⟨z1, x1, m.calls ++ [.GetInstalledVersions]⟩
      exact ⟨.GetInstalledVersions :: rest,
        by simp [Run, hz, callGetInstalledVersions, hget, hin, hrest]⟩
    rcases hfetch : env.fetchVersionMap z1 x1 with ⟨r2, z2, x2⟩
    cases r2 with
    | error e =>
      exact ⟨[.GetInstalledVersions, .fetchVersionMap],
        by simp [Run, hz, callGetInstalledVersions, hget, hin, callFetchVersionMap, hfetch]⟩
    | ok vm =>
      rcases htar : env.getTarPath version vm x2 with ⟨r3, x3⟩
      cases r3 with
      | error e =>
        refine ⟨[.GetInstalledVersions, .fetchVersionMap, .getTarPath version], ?_⟩
        by_cases his : errorsIs e env.ErrUnsupportedVersion = true <;>
          simp [Run, hz, callGetInstalledVersions, hget, hin, callFetchVersionMap, hfetch,
            callGetTarPath, htar, his]
      | ok tar =>
        rcases hconf : env.getConfirmation x3 with ⟨ans, x4⟩
        cases ans with
        | false =>
          exact ⟨[.GetInstalledVersions, .fetchVersionMap, .getTarPath version,
            .Printf (promptText version), .getConfirmation],
            by simp [Run, hz, callGetInstalledVersions, hget, hin, callFetchVersionMap, hfetch,
              callGetTarPath, htar, callGetConfirmation, hconf, Machine.record]⟩
        | true =>
          rcases hinst : env.Install version false z2 x4 with ⟨r5, z5, x5⟩
          cases r5 with
          | some e =>
            exact ⟨[.GetInstalledVersions, .fetchVersionMap, .getTarPath version,
              .Printf (promptText version), .getConfirmation, .Install version false],
              by simp [Run, hz, callGetInstalledVersions, hget, hin, callFetchVersionMap,
                hfetch, callGetTarPath, htar, callGetConfirmation, hconf, Machine.record,
                callInstall, hinst]⟩
          | none =>
            obtain ⟨rest, hrest, _⟩ := runBin_calls env version cmd
              ⟨z5, x5, m.calls ++ [.GetInstalledVersions, .fetchVersionMap,
                .getTarPath version, .Printf (promptText version), .getConfirmation,
                .Install version false]⟩
            exact ⟨[.GetInstalledVersions, .fetchVersionMap, .getTarPath version,
              .Printf (promptText version), .getConfirmation, .Install version false]
              ++ rest,
              by simp [Run, hz, callGetInstalledVersions, hget, hin, callFetchVersionMap,
                hfetch, callGetTarPath, htar, callGetConfirmation, hconf, Machine.record,
                callInstall, hinst, hrest]⟩

end facts

/-! ## The `run` flow -/

section run
variable {X : Type} (env : Env X)

/-- C3. `Run("", cmd)` returns the error "no zig version provided." at once: the
machine it leaves is the machine it was given, so no installed-version listing,
catalogue fetch, prompt, `Install` or `runBin` took place. -/
theorem Run_no_version (cmd : List String) (m : Machine X) :
    Run env "" cmd m = (.err (.errorString "no zig version provided."), m) := by
  simp [Run, String.utf8ByteSize, String.utf8ByteSize.go]

/-- C4. For a non-empty `version` that is in the list `GetInstalledVersions`
returns, `Run(version, cmd)` is `runBin(version, cmd)` started right after the
listing, with `cmd` unchanged; the calls it makes after the listing contain no
catalogue fetch, resolution, prompt or `Install`. -/
theorem Run_installed (version : String) (cmd : List String) (m : Machine X)
    (vs : List String) (z1 : ZVM) (x1 : X)
    (hv : version ≠ "")
    (hget : env.GetInstalledVersions m.zvm m.ext = (.ok vs, z1, x1))
    (hin : version ∈ vs) :
    Run env version cmd m
        = runBin env version cmd ⟨z1, x1, m.calls ++ [.GetInstalledVersions]⟩ ∧
      ∃ rest, (Run env version cmd m).2.calls = m.calls ++ .GetInstalledVersions :: rest ∧
        ∀ c ∈ rest, c.isInstallStep = false := by
  have hne : version.utf8ByteSize ≠ 0 := fun h => hv ((utf8ByteSize_eq_zero_iff version).1 h)
  have hrun : Run env version cmd m
      = runBin env version cmd ⟨z1, x1, m.calls ++ [.GetInstalledVersions]⟩ := by
    simp [Run, hne, callGetInstalledVersions, hget, hin]
  refine ⟨hrun, ?_⟩
  obtain ⟨rest, hrest, hall⟩ :=
    runBin_calls env version cmd ⟨z1, x1, m.calls ++ [.GetInstalledVersions]⟩
  refine ⟨rest, ?_, ?_⟩
  · rw [hrun, hrest]; simp
  · intro c hc
    have := hall c hc
    cases c <;> simp_all [Call.isRunBinStep, Call.isInstallStep]

/-- Witness of C4: `0.11.0` is installed with its binary. -/
theorem Run_installed_witness :
    Run diskEnv "0.11.0" ["version"] (machineOf goodDisk)
        = runBin diskEnv "0.11.0" ["version"]
            ⟨sampleZVM, goodDisk, [] ++ [.GetInstalledVersions]⟩ ∧
      ∃ rest, (Run diskEnv "0.11.0" ["version"] (machineOf goodDisk)).2.calls
          = [] ++ .GetInstalledVersions :: rest ∧
        ∀ c ∈ rest, c.isInstallStep = false :=
  Run_installed diskEnv "0.11.0" ["version"] (machineOf goodDisk) ["0.11.0"] sampleZVM goodDisk
    (by decide) rfl (by decide)

/-- C1. Whenever `os.Stat` of the binary path `<baseDir>/<version>/zig` (`zig.exe`
on windows) fails, `runBin` does not return an error: building the error
message evaluates `stat.Name()` on the nil `FileInfo`, and the call panics,
after the one call of `os.Stat` and without calling `meta.Exec`. -/
theorem runBin_missing_binary_panics (version : String) (cmd : List String) (m : Machine X)
    (e : GoError)
    (hs : env.Stat (TrimSpace (env.Join [m.zvm.baseDir, version,
      if env.GOOS = "windows" then "zig.exe" else "zig"])) m.ext = .error e) :
    runBin env version cmd m
      = (.panic "runtime error: invalid memory address or nil pointer dereference",
         m.record (.Stat (TrimSpace (env.Join [m.zvm.baseDir, version,
           if env.GOOS = "windows" then "zig.exe" else "zig"])))) := by
  simp [runBin, osStat, hs]

/-- Witness of C1: the directory `/zvm/0.11.0` is there and listed as installed,
its `zig` binary is not; `runBin`, and `Run` with it, panic. -/
theorem runBin_missing_binary_panics_witness :
    "0.11.0" ∈ brokenDisk.versions ∧
    diskEnv.Stat "/zvm/0.11.0" brokenDisk = .ok ⟨"0.11.0"⟩ ∧
    runBin diskEnv "0.11.0" ["version"] (machineOf brokenDisk)
      = (.panic "runtime error: invalid memory address or nil pointer dereference",
         (machineOf brokenDisk).record (.Stat "/zvm/0.11.0/zig")) ∧
    (Run diskEnv "0.11.0" ["version"] (machineOf brokenDisk)).1
      = .panic "runtime error: invalid memory address or nil pointer dereference" :=
  ⟨by decide, rfl,
    runBin_missing_binary_panics diskEnv "0.11.0" ["version"] (machineOf brokenDisk)
      (.errorString "stat /zvm/0.11.0/zig: no such file or directory") rfl,
    by decide⟩

/-- C5. For a non-empty `version` that is not installed and resolves in the
catalogue, a declined prompt makes `Run` return the error
"version <version> is not installed"; the calls made are the listing, the
fetch, the resolution, the printed question and the prompt, so neither
`Install` nor `runBin` ran and the world is as the prompt left it. -/
theorem Run_declined (version : String) (cmd : List String) (m : Machine X)
    (vs : List String) (z1 z2 : ZVM) (x1 x2 x3 x4 : X) (vm : zigVersionMap) (p : String)
    (hv : version ≠ "")
    (hget : env.GetInstalledVersions m.zvm m.ext = (.ok vs, z1, x1))
    (hnot : version ∉ vs)
    (hfetch : env.fetchVersionMap z1 x1 = (.ok vm, z2, x2))
    (htar : env.getTarPath version vm x2 = (.ok p, x3))
    (hconf : env.getConfirmation x3 = (false, x4)) :
    Run env version cmd m
      = (.err (.errorString ("version " ++ version ++ " is not installed")),
         ⟨z2, x4, m.calls ++ [.GetInstalledVersions, .fetchVersionMap, .getTarPath version,
            .Printf (promptText version), .getConfirmation]⟩) := by
  have hne : version.utf8ByteSize ≠ 0 := fun h => hv ((utf8ByteSize_eq_zero_iff version).1 h)
  simp [Run, hne, callGetInstalledVersions, hget, hnot, callFetchVersionMap, hfetch,
    callGetTarPath, htar, callGetConfirmation, hconf, Machine.record]

/-- Witness of C5: a fresh store, `0.11.0` in the catalogue, the user declines;
the store is unchanged. -/
theorem Run_declined_witness :
    Run diskEnv "0.11.0" ["version"] (machineOf freshDisk)
      = (.err (.errorString ("version " ++ "0.11.0" ++ " is not installed")),
         ⟨sampleZVM, freshDisk, [] ++ [.GetInstalledVersions, .fetchVersionMap,
            .getTarPath "0.11.0", .Printf (promptText "0.11.0"), .getConfirmation]⟩) :=
  Run_declined diskEnv "0.11.0" ["version"] (machineOf freshDisk) [] sampleZVM sampleZVM
    freshDisk freshDisk freshDisk freshDisk sampleCatalog "https://a"
    (by decide) rfl (by decide) rfl rfl rfl

/-- C6. For a non-empty `version` that is not installed, resolves and whose
prompt is accepted, `Run` calls `Install(version, false)`, whatever the
settings hold; an error of `Install` is returned as it is, with no call of
`runBin`; after a successful `Install` the result is that of
`runBin(version, cmd)`. Among all calls of `Run` exactly one is a call of
`Install`. -/
theorem Run_accepted (version : String) (cmd : List String) (m : Machine X)
    (vs : List String) (z1 z2 z5 : ZVM) (x1 x2 x3 x4 x5 : X) (vm : zigVersionMap) (p : String)
    (r : Option GoError)
    (hv : version ≠ "")
    (hget : env.GetInstalledVersions m.zvm m.ext = (.ok vs, z1, x1))
    (hnot : version ∉ vs)
    (hfetch : env.fetchVersionMap z1 x1 = (.ok vm, z2, x2))
    (htar : env.getTarPath version vm x2 = (.ok p, x3))
    (hconf : env.getConfirmation x3 = (true, x4))
    (hinst : env.Install version false z2 x4 = (r, z5, x5)) :
    (∀ e, r = some e →
      Run env version cmd m
        = (.err e, ⟨z5, x5, m.calls ++ [.GetInstalledVersions, .fetchVersionMap,
            .getTarPath version, .Printf (promptText version), .getConfirmation,
            .Install version false]⟩)) ∧
    (r = none →
      Run env version cmd m
        = runBin env version cmd ⟨z5, x5, m.calls ++ [.GetInstalledVersions, .fetchVersionMap,
            .getTarPath version, .Printf (promptText version), .getConfirmation,
            .Install version false]⟩) ∧
    (Run env version cmd m).2.calls.filter Call.isInstall
      = m.calls.filter Call.isInstall ++ [.Install version false] := by
  have hne : version.utf8ByteSize ≠ 0 := fun h => hv ((utf8ByteSize_eq_zero_iff version).1 h)
  cases r with
  | some e0 =>
    have hrun : Run env version cmd m
        = (.err e0, ⟨z5, x5, m.calls ++ [.GetInstalledVersions, .fetchVersionMap,
            .getTarPath version, .Printf (promptText version), .getConfirmation,
            .Install version false]⟩) := by
      simp [Run, hne, callGetInstalledVersions, hget, hnot, callFetchVersionMap, hfetch,
        callGetTarPath, htar, callGetConfirmation, hconf, Machine.record, callInstall, hinst]
    refine ⟨?_, ?_, ?_⟩
    · intro e he
      cases he
      exact hrun
    · intro he
      cases he
    · rw [hrun]
      simp [Call.isInstall]
  | none =>
    have hrun : Run env version cmd m
        = runBin env version cmd ⟨z5, x5, m.calls ++ [.GetInstalledVersions,
            .fetchVersionMap, .getTarPath version, .Printf (promptText version),
            .getConfirmation, .Install version false]⟩ := by
      simp [Run, hne, callGetInstalledVersions, hget, hnot, callFetchVersionMap, hfetch,
        callGetTarPath, htar, callGetConfirmation, hconf, Machine.record, callInstall, hinst]
    refine ⟨?_, ?_, ?_⟩
    · intro e he
      cases he
    · intro _
      exact hrun
    · obtain ⟨rest, hrest, hall⟩ := runBin_calls env version cmd
        ⟨z5, x5, m.calls ++ [.GetInstalledVersions, .fetchVersionMap, .getTarPath version,
          .Printf (promptText version), .getConfirmation, .Install version false]⟩
      rw [hrun, hrest]
      simp only [List.filter_append, filter_isInstall_of_runBinStep rest hall]
      simp [Call.isInstall]

/-- Witness of C6: a fresh store, `0.11.0` in the catalogue, the user accepts and
`Install` succeeds. -/
theorem Run_accepted_witness :
    Run diskEnv "0.11.0" ["version"] (machineOf eagerDisk)
      = runBin diskEnv "0.11.0" ["version"]
          ⟨sampleZVM, ⟨["0.11.0"], ["0.11.0"], sampleCatalog, true⟩,
            [] ++ [.GetInstalledVersions, .fetchVersionMap, .getTarPath "0.11.0",
              .Printf (promptText "0.11.0"), .getConfirmation, .Install "0.11.0" false]⟩ ∧
    (Run diskEnv "0.11.0" ["version"] (machineOf eagerDisk)).2.calls.filter Call.isInstall
      = [].filter Call.isInstall ++ [.Install "0.11.0" false] :=
  have h := Run_accepted diskEnv "0.11.0" ["version"] (machineOf eagerDisk) [] sampleZVM
    sampleZVM sampleZVM eagerDisk eagerDisk eagerDisk eagerDisk
    ⟨["0.11.0"], ["0.11.0"], sampleCatalog, true⟩ sampleCatalog "https://a" none
    (by decide) rfl (by decide) rfl rfl rfl rfl
  ⟨h.2.1 rfl, h.2.2⟩

/-- C2, as stated, fails: `0.10.0` is in the catalogue without an artifact for
this platform, `getTarPath` fails with an error that is not
`ErrUnsupportedVersion`, and `Run` returns that error as it is; its message
does not contain the version. -/
theorem Run_resolver_error_not_annotated :
    diskEnv.getTarPath "0.10.0" sampleCatalog eagerDisk
      = (.error (.sentinel "ErrUnsupportedSystem" "unsupported system"), eagerDisk) ∧
    (Run diskEnv "0.10.0" ["version"] (machineOf eagerDisk)).1
      = .err (.sentinel "ErrUnsupportedSystem" "unsupported system") ∧
    ¬ ("0.10.0".data <:+:
        (GoError.sentinel "ErrUnsupportedSystem" "unsupported system").Error.data) :=
  ⟨rfl, by decide, by decide⟩

/-- C2, amended. When `getTarPath` fails with `err` for a non-empty version that
is not installed, `Run` stops after the resolution. If
`errors.Is(err, ErrUnsupportedVersion)` it returns a new error whose message is
the message of `err`, then `": "`, then the quoted version; any other `err` is
returned as it is. -/
theorem Run_resolver_error (version : String) (cmd : List String) (m : Machine X)
    (vs : List String) (z1 z2 : ZVM) (x1 x2 x3 : X) (vm : zigVersionMap) (err : GoError)
    (hv : version ≠ "")
    (hget : env.GetInstalledVersions m.zvm m.ext = (.ok vs, z1, x1))
    (hnot : version ∉ vs)
    (hfetch : env.fetchVersionMap z1 x1 = (.ok vm, z2, x2))
    (htar : env.getTarPath version vm x2 = (.error err, x3)) :
    Run env version cmd m
      = (.err (if errorsIs err env.ErrUnsupportedVersion
            then .errorString (err.Error ++ ": " ++ env.Quote version) else err),
         ⟨z2, x3, m.calls ++ [.GetInstalledVersions, .fetchVersionMap,
            .getTarPath version]⟩) := by
  have hne : version.utf8ByteSize ≠ 0 := fun h => hv ((utf8ByteSize_eq_zero_iff version).1 h)
  by_cases his : errorsIs err env.ErrUnsupportedVersion = true
  · simp [Run, hne, callGetInstalledVersions, hget, hnot, callFetchVersionMap, hfetch,
      callGetTarPath, htar, his]
  · simp [Run, hne, callGetInstalledVersions, hget, hnot, callFetchVersionMap, hfetch,
      callGetTarPath, htar, his]

/-- Witness of C2, amended: `0.9.0` is not in the catalogue. -/
theorem Run_resolver_error_witness :
    Run diskEnv "0.9.0" ["version"] (machineOf eagerDisk)
      = (.err (if errorsIs (.sentinel "ErrUnsupportedVersion" "unsupported Zig version")
              diskEnv.ErrUnsupportedVersion
            then .errorString
              ((GoError.sentinel "ErrUnsupportedVersion" "unsupported Zig version").Error
                ++ ": " ++ diskEnv.Quote "0.9.0")
            else .sentinel "ErrUnsupportedVersion" "unsupported Zig version"),
         ⟨sampleZVM, eagerDisk, [] ++ [.GetInstalledVersions, .fetchVersionMap,
            .getTarPath "0.9.0"]⟩) :=
  Run_resolver_error diskEnv "0.9.0" ["version"] (machineOf eagerDisk) [] sampleZVM sampleZVM
    eagerDisk eagerDisk eagerDisk sampleCatalog
    (.sentinel "ErrUnsupportedVersion" "unsupported Zig version")
    (by decide) rfl (by decide) rfl rfl

end run

/-! ## `config.go` -/

/-- C8. `LoadMasterVersion` returns `s` when the map has a `master` entry whose
`version` field is the string `s`, and the empty string otherwise: no `master`
key, no `version` field, or a `version` that is not a string. It is a total
function. -/
theorem LoadMasterVersion_spec (zigMap : zigVersionMap) :
    (∀ entry s, List.lookup "master" zigMap = some entry →
      List.lookup "version" entry = some (.string s) → LoadMasterVersion zigMap = s) ∧
    (List.lookup "master" zigMap = none → LoadMasterVersion zigMap = "") ∧
    (∀ entry, List.lookup "master" zigMap = some entry →
      List.lookup "version" entry = none → LoadMasterVersion zigMap = "") ∧
    (∀ entry a, List.lookup "master" zigMap = some entry →
      List.lookup "version" entry = some a → (∀ s, a ≠ .string s) →
      LoadMasterVersion zigMap = "") := by
  refine ⟨?_, ?_, ?_, ?_⟩
  · intro entry s h1 h2
    simp [LoadMasterVersion, GoMap.index, h1, h2]
  · intro h1
    simp [LoadMasterVersion, GoMap.index, h1]
  · intro entry h1 h2
    simp [LoadMasterVersion, GoMap.index, h1, h2]
  · intro entry a h1 h2 h3
    cases a with
    | string s => exact absurd rfl (h3 s)
    | _ => simp [LoadMasterVersion, GoMap.index, h1, h2]

/-- Witness of C8: the rolling entry of the sample catalogue, and a catalogue
without one. -/
theorem LoadMasterVersion_spec_witness :
    LoadMasterVersion sampleCatalog = "0.14.0-dev.1+abc" ∧
    LoadMasterVersion [("0.11.0", [("version", .string "0.11.0")])] = "" :=
  ⟨(LoadMasterVersion_spec sampleCatalog).1 _ _ rfl rfl,
   (LoadMasterVersion_spec [("0.11.0", [("version", .string "0.11.0")])]).2.1 rfl⟩

section version
variable {X : Type} (env : Env X)

/-- C10. `getVersion(version)` returns an error exactly when the directory
`<baseDir>/<version>` cannot be stat-ed, or the trimmed output of `zig version`
differs from `version` while the zig binary cannot be stat-ed and `version` is
not `master`; in every other case it returns nil. So it succeeds whenever the
directory and the binary can both be stat-ed, whatever the output is, and for
`master` whenever the directory can be stat-ed. -/
theorem getVersion_error_iff (version : String) (m : Machine X) (out : String)
    (cerr : Option GoError) (x1 : X)
    (hcmd : env.CommandRun (TrimSpace (env.Join [m.zvm.baseDir, version, "zig"])) ["version"]
      m.ext = ((out, cerr), x1)) :
    ((∃ e, (getVersion env version m).1 = .err e) ↔
      ((∃ e, env.Stat (env.Join [m.zvm.baseDir, version]) m.ext = .error e) ∨
        (TrimSpace out ≠ version ∧
          (∃ e, env.Stat (TrimSpace (env.Join [m.zvm.baseDir, version, "zig"])) x1 = .error e) ∧
          version ≠ "master"))) ∧
    ((getVersion env version m).1 = .nil ↔
      ¬ ((∃ e, env.Stat (env.Join [m.zvm.baseDir, version]) m.ext = .error e) ∨
        (TrimSpace out ≠ version ∧
          (∃ e, env.Stat (TrimSpace (env.Join [m.zvm.baseDir, version, "zig"])) x1 = .error e) ∧
          version ≠ "master"))) ∧
    ((∃ info, env.Stat (env.Join [m.zvm.baseDir, version]) m.ext = .ok info) →
      (∃ info, env.Stat (TrimSpace (env.Join [m.zvm.baseDir, version, "zig"])) x1 = .ok info) →
      (getVersion env version m).1 = .nil) ∧
    (version = "master" →
      (∃ info, env.Stat (env.Join [m.zvm.baseDir, version]) m.ext = .ok info) →
      (getVersion env version m).1 = .nil) := by
  unfold getVersion osStat commandRun
  simp only [Machine.record]
  generalize env.Join [m.zvm.baseDir, version] = dir
  generalize TrimSpace (env.Join [m.zvm.baseDir, version, "zig"]) = targetZig at hcmd ⊢
  cases hd : env.Stat dir m.ext with
  | error e => simp
  | ok info =>
    simp only [hcmd]
    by_cases heq : version = TrimSpace out
    · simp [heq]
    · have heq2 : ¬ TrimSpace out = version := fun h => heq h.symm
      cases hb : env.Stat targetZig x1 with
      | ok info2 => cases cerr <;> simp [heq, heq2, hb]
      | error e2 =>
        by_cases hm : version = "master"
        · subst hm
          cases cerr <;> simp [heq, heq2, hb]
        · cases cerr <;> simp [heq, heq2, hm, hb]

/-- Witness of C10: `0.11.0` installed with its binary, which prints `0.11.0`,
and `0.11.0` installed without a binary. -/
theorem getVersion_error_iff_witness :
    (getVersion diskEnv "0.11.0" (machineOf goodDisk)).1 = .nil ∧
    ∃ e, (getVersion diskEnv "0.11.0" (machineOf brokenDisk)).1 = .err e :=
  ⟨(getVersion_error_iff diskEnv "0.11.0" (machineOf goodDisk) "0.11.0\n" none goodDisk
      rfl).2.2.1 ⟨⟨"0.11.0"⟩, rfl⟩ ⟨⟨"zig"⟩, rfl⟩,
   (getVersion_error_iff diskEnv "0.11.0" (machineOf brokenDisk) ""
      (some (.errorString "fork/exec /zvm/0.11.0/zig: no such file or directory"))
      brokenDisk rfl).1.2
      (Or.inr ⟨by decide,
        ⟨.errorString "stat /zvm/0.11.0/zig: no such file or directory", rfl⟩, by decide⟩)⟩

end version

/-! ## The command actions -/

section commands
variable {X : Type} (env : Env X)

/-- C7, as stated, fails: the `run` command given ` 0.11.0` or ` v0.11.0` calls
`Run` with that very argument, white space included, and never with `0.11.0`;
with `0.11.0` installed, the command then fails where `Run("0.11.0", ...)`
succeeds. -/
theorem runAction_keeps_whitespace :
    (runAction diskEnv (plainContext [" 0.11.0"]) (machineOf goodDisk)).2.calls.head?
      = some (.Run " 0.11.0" []) ∧
    (runAction diskEnv (plainContext [" v0.11.0"]) (machineOf goodDisk)).2.calls.head?
      = some (.Run " v0.11.0" []) ∧
    Call.Run "0.11.0" [] ∉
      (runAction diskEnv (plainContext [" 0.11.0"]) (machineOf goodDisk)).2.calls ∧
    Call.Run "0.11.0" [] ∉
      (runAction diskEnv (plainContext [" v0.11.0"]) (machineOf goodDisk)).2.calls ∧
    (runAction diskEnv (plainContext [" 0.11.0"]) (machineOf goodDisk)).1
      = .err (.errorString "unsupported Zig version: \" 0.11.0\"") ∧
    (Run diskEnv "0.11.0" [] (machineOf goodDisk)).1 = .nil := by
  decide

/-- C7, amended. The token the `run`, `use` (without `--sync`) and `uninstall`
commands hand to `Run`, `Use` and `Uninstall` is the first argument with one
leading `v` removed when it starts with one, and nothing else changed: white
space is kept. The `install` command, when that token is not empty, hands
`Install` the `Package` field of `ExtractInstall` applied to it. `run` passes
the remaining arguments on unchanged. -/
theorem actions_token (ctx : Context) (m : Machine X) :
    runAction env ctx m
      = Run env (stripLeadingV ctx.First) ctx.args.tail
          (m.record (.Run (stripLeadingV ctx.First) ctx.args.tail)) ∧
    (∃ rest, (runAction env ctx m).2.calls
      = m.calls ++ .Run (stripLeadingV ctx.First) ctx.args.tail :: rest) ∧
    (ctx.Bool "sync" = false →
      (useAction env ctx m).2.calls = m.calls ++ [.Use (stripLeadingV ctx.First)]) ∧
    (uninstallAction env ctx m).2.calls
      = m.calls ++ [.Uninstall (stripLeadingV ctx.First)] ∧
    (stripLeadingV ctx.First ≠ "" →
      ∃ force rest, (installAction env ctx m).2.calls
        = m.calls ++ .Install (env.ExtractInstall (stripLeadingV ctx.First)).Package force
            :: rest) := by
  refine ⟨?_, ?_, ?_, ?_, ?_⟩
  · simp [runAction, TrimPrefix_v, Context.Tail]
  · obtain ⟨rest, hrest⟩ := Run_calls env (stripLeadingV ctx.First) ctx.args.tail
      (m.record (.Run (stripLeadingV ctx.First) ctx.args.tail))
    refine ⟨rest, ?_⟩
    simp only [runAction, TrimPrefix_v, Context.Tail, hrest]
    simp [Machine.record]
  · intro hsync
    simp [useAction, hsync, callUse, TrimPrefix_v]
  · simp [uninstallAction, callUninstall, TrimPrefix_v]
  · intro hne
    rcases hinst : env.Install (env.ExtractInstall (stripLeadingV ctx.First)).Package
      (if ctx.Bool "force" = true then ctx.Bool "force" else m.zvm.Settings.AlwaysForceInstall)
      m.zvm m.ext with ⟨r, z1, x1⟩
    refine ⟨if ctx.Bool "force" = true then ctx.Bool "force"
      else m.zvm.Settings.AlwaysForceInstall, ?_⟩
    cases r with
    | some e =>
      exact ⟨[], by simp [installAction, TrimPrefix_v, hne, callInstall, hinst]⟩
    | none =>
      by_cases hzls : ctx.Bool "zls" = true
      · rcases hz : env.InstallZls (env.ExtractInstall (stripLeadingV ctx.First)).Package
          (zlsCompatOf ctx)
          (if ctx.Bool "force" = true then ctx.Bool "force"
            else m.zvm.Settings.AlwaysForceInstall) z1 x1 with ⟨r2, z2, x2⟩
        refine ⟨[.InstallZls (env.ExtractInstall (stripLeadingV ctx.First)).Package
          (zlsCompatOf ctx)
          (if ctx.Bool "force" = true then ctx.Bool "force"
            else m.zvm.Settings.AlwaysForceInstall)], ?_⟩
        cases r2 <;>
          simp [installAction, TrimPrefix_v, hne, callInstall, hinst, hzls, callInstallZls, hz]
      · exact ⟨[], by simp [installAction, TrimPrefix_v, hne, callInstall, hinst, hzls]⟩

/-- Witness of C7, amended: `use v0.11.0` without `--sync` hands `0.11.0` to
`Use`, and `install " 0.11.0"` hands ` 0.11.0` to `Install`. -/
theorem actions_token_witness :
    (useAction diskEnv (plainContext ["v0.11.0"]) (machineOf goodDisk)).2.calls
      = [] ++ [.Use (stripLeadingV "v0.11.0")] ∧
    ∃ force rest, (installAction diskEnv (plainContext [" 0.11.0"]) (machineOf freshDisk)).2.calls
      = [] ++ .Install (diskEnv.ExtractInstall (stripLeadingV " 0.11.0")).Package force
          :: rest :=
  ⟨(actions_token diskEnv (plainContext ["v0.11.0"]) (machineOf goodDisk)).2.2.1 rfl,
   (actions_token diskEnv (plainContext [" 0.11.0"]) (machineOf freshDisk)).2.2.2.2
     (by decide)⟩

/-- C9. In the `install` command an argument that is empty or exactly `v` fails
with "no version provided" and nothing is called. Otherwise `Install` is
called once, on the `ZVM` value as it was, with force equal to
`AlwaysForceInstall || --force`; its error is returned as it is; `InstallZls`
is called, with the same force, exactly when `--zls` is set and `Install`
returned nil. The action writes no setting: if `Install` and `InstallZls` keep
the settings, they are the same after the action. -/
theorem installAction_spec (ctx : Context) (m : Machine X) (pkg : String) (force : Bool)
    (hpkg : pkg = (env.ExtractInstall (TrimPrefix ctx.First "v")).Package)
    (hforce : force = (m.zvm.Settings.AlwaysForceInstall || ctx.Bool "force")) :
    ((ctx.First = "" ∨ ctx.First = "v") →
      installAction env ctx m = (.err (.errorString "no version provided"), m)) ∧
    (ctx.First ≠ "" → ctx.First ≠ "v" →
      (installAction env ctx m).2.calls
        = m.calls ++ .Install pkg force ::
            (if ctx.Bool "zls" = true ∧ (env.Install pkg force m.zvm m.ext).1 = none
              then [.InstallZls pkg (zlsCompatOf ctx) force] else [])) ∧
    (ctx.First ≠ "" → ctx.First ≠ "v" →
      ∀ e, (env.Install pkg force m.zvm m.ext).1 = some e →
        (installAction env ctx m).1 = .err e) ∧
    ((∀ v f z x, (env.Install v f z x).2.1.Settings = z.Settings) →
      (∀ v c f z x, (env.InstallZls v c f z x).2.1.Settings = z.Settings) →
      (installAction env ctx m).2.zvm.Settings = m.zvm.Settings) := by
  have hf : force = (if ctx.Bool "force" = true then ctx.Bool "force"
      else m.zvm.Settings.AlwaysForceInstall) := by
    rw [hforce]
    cases ctx.Bool "force" <;> simp
  subst hpkg
  subst hf
  clear hforce
  by_cases hempty : TrimPrefix ctx.First "v" = ""
  · have harg := (TrimPrefix_v_eq_empty_iff ctx.First).1 hempty
    refine ⟨?_, ?_, ?_, ?_⟩
    · intro _
      simp [installAction, hempty]
    · intro h1 h2
      rcases harg with h | h
      · exact absurd h h1
      · exact absurd h h2
    · intro h1 h2
      rcases harg with h | h
      · exact absurd h h1
      · exact absurd h h2
    · intro _ _
      simp [installAction, hempty]
  · have harg : ¬ (ctx.First = "" ∨ ctx.First = "v") :=
      fun h => hempty ((TrimPrefix_v_eq_empty_iff ctx.First).2 h)
    unfold installAction
    simp only [hempty, if_false]
    generalize (env.ExtractInstall (TrimPrefix ctx.First "v")).Package = pkg
    generalize (if ctx.Bool "force" = true then ctx.Bool "force"
      else m.zvm.Settings.AlwaysForceInstall) = force
    rcases hinst : env.Install pkg force m.zvm m.ext with ⟨r, z1, x1⟩
    rcases hzls : env.InstallZls pkg (zlsCompatOf ctx) force z1 x1 with ⟨r2, z2, x2⟩
    refine ⟨?_, ?_, ?_, ?_⟩
    · intro h
      exact absurd h harg
    · intro _ _
      cases r with
      | some e => simp [callInstall, hinst]
      | none =>
        by_cases hflag : ctx.Bool "zls" = true
        · cases r2 <;> simp [callInstall, hinst, hflag, callInstallZls, hzls]
        · simp [callInstall, hinst, hflag]
    · intro _ _ e he
      simp only at he
      subst he
      simp [callInstall, hinst]
    · intro hkeep hkeepZ
      have h1 : z1.Settings = m.zvm.Settings := by
        have := hkeep pkg force m.zvm m.ext
        rw [hinst] at this
        exact this
      have h2 : z2.Settings = z1.Settings := by
        have := hkeepZ pkg (zlsCompatOf ctx) force z1 x1
        rw [hzls] at this
        exact this
      cases r with
      | some e => simp [callInstall, hinst, h1]
      | none =>
        by_cases hflag : ctx.Bool "zls" = true
        · cases r2 <;> simp [callInstall, hinst, hflag, callInstallZls, hzls, h1, h2]
        · simp [callInstall, hinst, hflag, h1]

/-- Witness of C9: `install --zls v0.11.0` with `--force` not set and
`AlwaysForceInstall` false, and `install v`. -/
theorem installAction_spec_witness :
    (installAction diskEnv (flagContext ["v0.11.0"] ["zls"]) (machineOf freshDisk)).2.calls
      = [] ++ .Install "0.11.0" false ::
          (if (flagContext ["v0.11.0"] ["zls"]).Bool "zls" = true ∧
              (diskEnv.Install "0.11.0" false (machineOf freshDisk).zvm
                (machineOf freshDisk).ext).1 = none
            then [.InstallZls "0.11.0" (zlsCompatOf (flagContext ["v0.11.0"] ["zls"])) false]
            else []) ∧
    installAction diskEnv (plainContext ["v"]) (machineOf freshDisk)
      = (.err (.errorString "no version provided"), machineOf freshDisk) :=
  ⟨(installAction_spec diskEnv (flagContext ["v0.11.0"] ["zls"]) (machineOf freshDisk)
      "0.11.0" false (by decide) (by decide)).2.1 (by decide) (by decide),
   (installAction_spec diskEnv (plainContext ["v"]) (machineOf freshDisk)
      "" false (by decide) (by decide)).1 (Or.inr rfl)⟩

end commands

end Zvm
